import Mathlib

/-!
Verification development for the MAESTRO component-risk evaluator
(`src/MAESTRO/c_app.py` and its duplicate core in `src/MAESTRO/crane_app.py`).

The logical core of the repository is shallowly embedded here:
scalar values from parsed tables are `Value` (strings or integers, the
shapes the matcher distinguishes), records are ordered key/value lists
(Python dicts preserve insertion order), Python `float` parsing is an
exact-rational parser over the decimal/scientific fragment, and the
`except`-guarded division in `within_tolerance` (including the caught
`ZeroDivisionError` for a zero expected value) is made explicit.
-/

/-! ### Character-level model of the Python string operations used by
`normalize_units`: `str.replace` with one-character needles, `str.lower`
(restricted to the ASCII letters plus the ohm sign, the characters the
replacements interact with), and `str.strip`. -/

/-- Whitespace stripped by Python `str.strip` (ASCII fragment). -/
def isPyWS (c : Char) : Bool :=
  c = ' ' || c = '\t' || c = '\n' || c = '\r' || c = '\x0b' || c = '\x0c'

/-- `str.strip`: drop whitespace from both ends. -/
def stripChars (l : List Char) : List Char :=
  ((l.dropWhile isPyWS).reverse.dropWhile isPyWS).reverse

/-- Model of `str.lower` on the character alphabet the normalizer touches:
ASCII uppercase letters map to lowercase, the ohm sign maps to the small
omega, everything else is fixed. -/
def pyLower (c : Char) : Char :=
  if 65 ≤ c.toNat ∧ c.toNat ≤ 90 then Char.ofNat (c.toNat + 32)
  else if c = 'Ω' then 'ω' else c

/-- The three sequential single-character `str.replace` calls of
`normalize_units` (`µ → u`, `Ω → ohm`, `k → 000`), fused into one pass:
no replacement output contains a later needle, so the sequential passes
agree with the single pass. -/
def replaceChar (c : Char) : List Char :=
  if c = 'µ' then ['u']
  else if c = 'Ω' then ['o', 'h', 'm']
  else if c = 'k' then ['0', '0', '0']
  else [c]

/-- Apply `replaceChar` across a string. -/
def replaceAll : List Char → List Char
  | [] => []
  | c :: cs => replaceChar c ++ replaceAll cs

/-- Decimal digit character. -/
def digitChar (d : Nat) : Char :=
  if d = 0 then '0' else if d = 1 then '1' else if d = 2 then '2'
  else if d = 3 then '3' else if d = 4 then '4' else if d = 5 then '5'
  else if d = 6 then '6' else if d = 7 then '7' else if d = 8 then '8'
  else '9'

/-- Decimal digits of a natural number, most significant first. -/
def natDigits (n : Nat) : List Char :=
  if _h : n < 10 then [digitChar n]
  else natDigits (n / 10) ++ [digitChar (n % 10)]
decreasing_by exact Nat.div_lt_self (by omega) (by omega)

/-- Python `str` of an `int`. -/
def intStr : Int → List Char
  | Int.ofNat m => natDigits m
  | Int.negSucc m => '-' :: natDigits (m + 1)

/-- A scalar cell value of a parsed table: the matcher only distinguishes
strings (normalized with replacements) from non-strings (stringified). -/
inductive Value where
  | VStr : String → Value
  | VInt : Int → Value
deriving DecidableEq, Repr

/-- Core of `normalize_units` on string data. -/
def normStr (l : List Char) : List Char :=
  stripChars ((replaceAll l).map pyLower)

/-- `normalize_units` from `c_app.py` lines 29-32 (same in `crane_app.py`):
strings get the unit substitutions, lowering and stripping; other values
are stringified and stripped. -/
def normalize_units : Value → String
  | Value.VStr s => ⟨normStr s.data⟩
  | Value.VInt n => ⟨stripChars (intStr n)⟩

/-! ### Helper lemmas about the character layer -/

theorem char_toNat_ofNat_small (n : Nat) (h : n < 55296) :
    (Char.ofNat n).toNat = n := by
  have hv : n.isValidChar := Or.inl h
  simp only [Char.ofNat, hv, dif_pos]
  simp [Char.toNat, UInt32.toNat, BitVec.toNat_ofNatLt, Char.ofNatAux]

theorem char_eq_of_toNat {c d : Char} (h : c.toNat = d.toNat) : c = d := by
  apply Char.ext
  apply UInt32.ext
  simpa [Char.toNat, UInt32.toNat] using h

theorem pyLower_cases (c : Char) :
    (65 ≤ c.toNat ∧ c.toNat ≤ 90 ∧ (pyLower c).toNat = c.toNat + 32) ∨
    (c = 'Ω' ∧ pyLower c = 'ω') ∨
    (¬(65 ≤ c.toNat ∧ c.toNat ≤ 90) ∧ c ≠ 'Ω' ∧ pyLower c = c) := by
  by_cases h : 65 ≤ c.toNat ∧ c.toNat ≤ 90
  · left
    refine ⟨h.1, h.2, ?_⟩
    simp only [pyLower, h, if_pos]
    exact char_toNat_ofNat_small _ (by omega)
  · by_cases hΩ : c = 'Ω'
    · right; left
      exact ⟨hΩ, by simp [pyLower, h, hΩ]⟩
    · right; right
      exact ⟨h, hΩ, by simp [pyLower, h, hΩ]⟩

theorem pyLower_idem (c : Char) : pyLower (pyLower c) = pyLower c := by
  rcases pyLower_cases c with ⟨h1, h2, h3⟩ | ⟨h1, h2⟩ | ⟨h1, h2, h3⟩
  · rcases pyLower_cases (pyLower c) with ⟨g1, g2, g3⟩ | ⟨g1, g2⟩ | ⟨g1, g2, g3⟩
    · omega
    · have : (pyLower c).toNat = 937 := by rw [g1]; decide
      omega
    · exact g3
  · rw [h2]; decide
  · rw [h3, h3]

theorem pyLower_eq_mu {c : Char} (h : pyLower c = 'µ') : c = 'µ' := by
  rcases pyLower_cases c with ⟨h1, h2, h3⟩ | ⟨h1, h2⟩ | ⟨h1, h2, h3⟩
  · have : ('µ'.toNat = 181) := by decide
    rw [h] at h3; omega
  · rw [h2] at h; exact absurd h (by decide)
  · rw [h3] at h; exact h

theorem pyLower_ne_Omega (c : Char) : pyLower c ≠ 'Ω' := by
  rcases pyLower_cases c with ⟨h1, h2, h3⟩ | ⟨h1, h2⟩ | ⟨h1, h2, h3⟩
  · intro h
    have : ('Ω'.toNat = 937) := by decide
    rw [h] at h3; omega
  · rw [h2]; decide
  · rw [h3]; exact h2

theorem pyLower_eq_k {c : Char} (h : pyLower c = 'k') : c = 'k' ∨ c = 'K' := by
  rcases pyLower_cases c with ⟨h1, h2, h3⟩ | ⟨h1, h2⟩ | ⟨h1, h2, h3⟩
  · right
    have hk : ('k'.toNat = 107) := by decide
    apply char_eq_of_toNat
    have : ('K'.toNat = 75) := by decide
    rw [h] at h3; omega
  · rw [h2] at h; exact absurd h (by decide)
  · left; rw [h3] at h; exact h

theorem mem_replaceChar {d c : Char} (h : d ∈ replaceChar c) :
    d ∈ ['u', 'o', 'h', 'm', '0'] ∨ (d = c ∧ c ≠ 'µ' ∧ c ≠ 'Ω' ∧ c ≠ 'k') := by
  by_cases h1 : c = 'µ'
  · left; simp [replaceChar, h1] at h; simp [h]
  · by_cases h2 : c = 'Ω'
    · left; simp [replaceChar, h1, h2] at h; rcases h with h | h | h <;> simp [h]
    · by_cases h3 : c = 'k'
      · left; simp [replaceChar, h1, h2, h3] at h; simp [h]
      · right; simp [replaceChar, h1, h2, h3] at h; exact ⟨h, h1, h2, h3⟩

theorem replaceAll_eq_self {l : List Char}
    (h : ∀ c ∈ l, c ≠ 'µ' ∧ c ≠ 'Ω' ∧ c ≠ 'k') : replaceAll l = l := by
  induction l with
  | nil => rfl
  | cons c cs ih =>
    have hc := h c (by simp)
    simp only [replaceAll, replaceChar, if_neg hc.1, if_neg hc.2.1, if_neg hc.2.2]
    simp [ih fun d hd => h d (by simp [hd])]

theorem mem_of_mem_replaceAll {d : Char} :
    ∀ {l : List Char}, d ∈ replaceAll l → ∃ c ∈ l, d ∈ replaceChar c := by
  intro l
  induction l with
  | nil => intro h; simp [replaceAll] at h
  | cons c cs ih =>
    intro h
    simp only [replaceAll, List.mem_append] at h
    rcases h with h | h
    · exact ⟨c, by simp, h⟩
    · obtain ⟨e, he, hd⟩ := ih h
      exact ⟨e, by simp [he], hd⟩

theorem exists_append_dropWhile (p : Char → Bool) (l : List Char) :
    ∃ t, t ++ l.dropWhile p = l := by
  induction l with
  | nil => exact ⟨[], rfl⟩
  | cons c cs ih =>
    by_cases h : p c
    · obtain ⟨t, ht⟩ := ih
      exact ⟨c :: t, by simp [List.dropWhile, h, ht]⟩
    · exact ⟨[], by simp [List.dropWhile, h]⟩

theorem dropWhile_dropWhile (p : Char → Bool) (l : List Char) :
    (l.dropWhile p).dropWhile p = l.dropWhile p := by
  induction l with
  | nil => rfl
  | cons c cs ih =>
    by_cases h : p c
    · simp only [List.dropWhile, h]; exact ih
    · simp [List.dropWhile, h]

theorem dropWhile_eq_self_of_append {p : Char → Bool} {s w : List Char}
    (h : (s ++ w).dropWhile p = s ++ w) : s.dropWhile p = s := by
  cases s with
  | nil => rfl
  | cons c s' =>
    by_cases hc : p c
    · exfalso
      have h1 : ((c :: s') ++ w).dropWhile p = (s' ++ w).dropWhile p := by
        simp [List.dropWhile, hc]
      rw [h1] at h
      have h2 : ((s' ++ w).dropWhile p).length ≤ (s' ++ w).length :=
        List.Sublist.length_le (List.dropWhile_sublist p)
      have h3 : ((c :: s') ++ w).length = (s' ++ w).length + 1 := by simp
      rw [h] at h2
      omega
    · simp [List.dropWhile, hc]

theorem stripChars_idem (l : List Char) : stripChars (stripChars l) = stripChars l := by
  set m := l.dropWhile isPyWS with hm
  have hmm : m.dropWhile isPyWS = m := dropWhile_dropWhile isPyWS l
  set s := (m.reverse.dropWhile isPyWS).reverse with hs
  have hsrev : s.reverse = m.reverse.dropWhile isPyWS := by rw [hs, List.reverse_reverse]
  have hfront : s.dropWhile isPyWS = s := by
    obtain ⟨u, hu⟩ := exists_append_dropWhile isPyWS m.reverse
    have hmdecomp : m = s ++ u.reverse := by
      have : m.reverse.reverse = (u ++ m.reverse.dropWhile isPyWS).reverse := by rw [hu]
      rw [List.reverse_reverse, List.reverse_append] at this
      rw [this, hs]
    rw [hmdecomp] at hmm
    exact dropWhile_eq_self_of_append hmm
  have hback : s.reverse.dropWhile isPyWS = s.reverse := by
    rw [hsrev]
    exact dropWhile_dropWhile isPyWS m.reverse
  show ((s.dropWhile isPyWS).reverse.dropWhile isPyWS).reverse = s
  rw [hfront, hback, List.reverse_reverse]

theorem mem_of_mem_stripChars {c : Char} {l : List Char}
    (h : c ∈ stripChars l) : c ∈ l := by
  simp only [stripChars, List.mem_reverse] at h
  have h1 : c ∈ (l.dropWhile isPyWS).reverse := (List.dropWhile_sublist isPyWS).subset h
  rw [List.mem_reverse] at h1
  exact (List.dropWhile_sublist isPyWS).subset h1

/-! ### Idempotency analysis of the normalizer -/

theorem normStr_chars {c : Char} {l : List Char} (hc : c ∈ normStr l)
    (hK : 'K' ∉ l) : c ≠ 'µ' ∧ c ≠ 'Ω' ∧ c ≠ 'k' ∧ pyLower c = c := by
  have hy : c ∈ (replaceAll l).map pyLower := mem_of_mem_stripChars hc
  obtain ⟨d, hd, hdc⟩ := List.mem_map.mp hy
  obtain ⟨e, he, hde⟩ := mem_of_mem_replaceAll hd
  refine ⟨?_, ?_, ?_, ?_⟩
  · intro h
    rw [h] at hdc
    have hdmu : d = 'µ' := pyLower_eq_mu hdc
    rw [hdmu] at hde
    rcases mem_replaceChar hde with hmem | ⟨heq, hne, _, _⟩
    · simp at hmem
    · exact hne heq.symm
  · intro h
    rw [h] at hdc
    exact pyLower_ne_Omega d hdc
  · intro h
    rw [h] at hdc
    rcases pyLower_eq_k hdc with hk | hK'
    · rw [hk] at hde
      rcases mem_replaceChar hde with hmem | ⟨heq, _, _, hne⟩
      · simp at hmem
      · exact hne heq.symm
    · rw [hK'] at hde
      rcases mem_replaceChar hde with hmem | ⟨heq, _, _, _⟩
      · simp at hmem
      · rw [← heq] at he
        exact hK he
  · rw [← hdc]
    exact pyLower_idem d

theorem normStr_idem {l : List Char} (hK : 'K' ∉ l) :
    normStr (normStr l) = normStr l := by
  have hchars := fun c hc => normStr_chars (c := c) (l := l) hc hK
  have h1 : replaceAll (normStr l) = normStr l :=
    replaceAll_eq_self fun c hc => ⟨(hchars c hc).1, (hchars c hc).2.1, (hchars c hc).2.2.1⟩
  have h2 : (normStr l).map pyLower = normStr l := by
    have := List.map_congr_left (l := normStr l) (f := pyLower) (g := id)
      fun c hc => (hchars c hc).2.2.2
    simpa using this
  show stripChars ((replaceAll (normStr l)).map pyLower) = normStr l
  rw [h1, h2]
  exact stripChars_idem _

theorem digitChar_range (d : Nat) :
    48 ≤ (digitChar d).toNat ∧ (digitChar d).toNat ≤ 57 := by
  unfold digitChar
  split_ifs <;> decide

theorem natDigits_range (n : Nat) :
    ∀ c ∈ natDigits n, 48 ≤ c.toNat ∧ c.toNat ≤ 57 := by
  induction n using natDigits.induct with
  | case1 n h =>
    intro c hc
    rw [natDigits, dif_pos h] at hc
    simp at hc
    rw [hc]
    exact digitChar_range n
  | case2 n h ih =>
    intro c hc
    rw [natDigits, dif_neg h] at hc
    rcases List.mem_append.mp hc with hc | hc
    · exact ih c hc
    · simp at hc
      rw [hc]
      exact digitChar_range _

theorem intStr_range (n : Int) :
    ∀ c ∈ intStr n, (48 ≤ c.toNat ∧ c.toNat ≤ 57) ∨ c = '-' := by
  cases n with
  | ofNat m =>
    intro c hc
    exact Or.inl (natDigits_range m c hc)
  | negSucc m =>
    intro c hc
    rcases List.mem_cons.mp hc with hc | hc
    · exact Or.inr hc
    · exact Or.inl (natDigits_range (m + 1) c hc)

theorem digitish_fixed {c : Char} (h : (48 ≤ c.toNat ∧ c.toNat ≤ 57) ∨ c = '-') :
    c ≠ 'µ' ∧ c ≠ 'Ω' ∧ c ≠ 'k' ∧ pyLower c = c := by
  have hn : c.toNat ≤ 57 := by
    rcases h with ⟨_, h2⟩ | h
    · exact h2
    · rw [h]; decide
  refine ⟨?_, ?_, ?_, ?_⟩
  · intro he; rw [he] at hn; revert hn; decide
  · intro he; rw [he] at hn; revert hn; decide
  · intro he; rw [he] at hn; revert hn; decide
  · rcases pyLower_cases c with ⟨h1, _, _⟩ | ⟨h1, _⟩ | ⟨_, _, h3⟩
    · omega
    · rw [h1] at hn; exact absurd hn (by decide)
    · exact h3

/-! ### Tolerance Comparator: `within_tolerance` (`c_app.py` lines 34-40,
`crane_app.py` lines 37-43).  Python `float` parsing is modeled exactly on
the decimal/scientific fragment (optional sign, digits with optional point,
optional exponent), producing an exact rational.  The bare `except:` of the
source catches both the `ValueError` of a failed parse and the
`ZeroDivisionError` of a zero expected value; both appear here as explicit
`false` results. -/

/-- Value of a digit string. -/
def digitsToNat (ds : List Char) : Nat :=
  ds.foldl (fun acc c => 10 * acc + (c.toNat - 48)) 0

/-- `m * 10 ^ e` as an exact rational. -/
def ratScale (m : Int) (e : Int) : Rat :=
  if 0 ≤ e then Rat.divInt (m * (10 : Int) ^ e.toNat) 1
  else Rat.divInt m ((10 : Int) ^ (-e).toNat)

/-- Exponent suffix of a float literal. -/
def parseExp (mant : Int) (fracLen : Nat) (t : List Char) : Option Rat :=
  let st := match t with
    | '+' :: u => ((1 : Int), u)
    | '-' :: u => ((-1 : Int), u)
    | _ => ((1 : Int), t)
  let ed := st.2.span Char.isDigit
  if ed.1.isEmpty || !ed.2.isEmpty then none
  else some (ratScale mant (st.1 * (digitsToNat ed.1 : Int) - (fracLen : Int)))

/-- Python `float(...)` on the decimal/scientific fragment: optional sign,
integer part, optional fractional part, optional exponent; anything else
(including the empty string) fails to parse. -/
def pyFloatCore (cs : List Char) : Option Rat :=
  let sc := match cs with
    | '+' :: t => ((1 : Int), t)
    | '-' :: t => ((-1 : Int), t)
    | _ => ((1 : Int), cs)
  let ipr := sc.2.span Char.isDigit
  let fpr := match ipr.2 with
    | '.' :: t => t.span Char.isDigit
    | _ => (([] : List Char), ipr.2)
  if ipr.1.isEmpty && fpr.1.isEmpty then none
  else
    let mant : Int := sc.1 * (digitsToNat (ipr.1 ++ fpr.1) : Int)
    match fpr.2 with
    | [] => some (ratScale mant (-(fpr.1.length : Int)))
    | 'e' :: t => parseExp mant fpr.1.length t
    | 'E' :: t => parseExp mant fpr.1.length t
    | _ => none

/-- `float(...)` also ignores surrounding whitespace. -/
def pyFloat? (s : String) : Option Rat :=
  pyFloatCore (stripChars s.data)

/-- The default relative tolerance `0.05`. -/
def tol05 : Rat := Rat.divInt 5 100

/-- `within_tolerance` from the source: parse both inputs as floats; on
success return `|expected - actual| / expected <= tolerance`, with the
`except:` branch (parse failure, or division by a zero expected value)
returning `False`. -/
def within_tolerance (expected actual : String) (tolerance : Rat) : Bool :=
  match pyFloat? expected, pyFloat? actual with
  | some expected_val, some actual_val =>
    if expected_val = 0 then false
    else decide (|expected_val - actual_val| / expected_val ≤ tolerance)
  | _, _ => false

example : pyFloat? "100" = some (Rat.divInt 100 1) := by decide
example : pyFloat? "-1.5" = some (Rat.divInt (-15) 10) := by decide
example : pyFloat? "4.7e3" = some (Rat.divInt 4700 1) := by decide
example : pyFloat? "2e-2" = some (Rat.divInt 2 100) := by decide
example : pyFloat? " 12 " = some (Rat.divInt 12 1) := by decide
example : pyFloat? "abc" = none := by decide
example : pyFloat? "" = none := by decide
example : pyFloat? "." = none := by decide
example : pyFloat? "1.2.3" = none := by decide
example : pyFloat? "1e" = none := by decide
example : pyFloat? "+.5" = some (Rat.divInt 5 10) := by decide

example : within_tolerance "abc" "1" tol05 = false := by decide
example : within_tolerance "1" "abc" tol05 = false := by decide
example : within_tolerance "0" "5" tol05 = false := by decide

/-! ### Records and the Matcher (`match_component_to_spec`,
`c_app.py` lines 42-67, duplicated at `crane_app.py` lines 45-70).
Python dicts preserve insertion order, so records are ordered key/value
lists; `r.get(k, "")` is `getD`. -/

/-- A component record, spec record or user-requirement mapping. -/
abbrev Record := List (String × Value)

/-- Python `r.get(k, "")`. -/
def getD (r : Record) (k : String) : Value :=
  (r.lookup k).getD (Value.VStr "")

/-- Python `str` applied to a value by an f-string. -/
def strOfValue : Value → String
  | Value.VStr s => s
  | Value.VInt n => ⟨intStr n⟩

/-- `re.search(r"\d", s)`: some character is a decimal digit. -/
def hasDigit (s : String) : Bool :=
  s.data.any Char.isDigit

def missingMsg (key : String) : String :=
  "Missing key: " ++ key ++ " in component or spec."

def mismatchMsg (key user_val spec_val : String) : String :=
  "Mismatch: user required " ++ key ++ " = " ++ user_val ++ ", SAE has " ++ spec_val

def tolMsg (key comp_val spec_val : String) : String :=
  "Out of tolerance: " ++ key ++ " component=" ++ comp_val ++ " spec=" ++ spec_val

/-- One iteration of the inner `for key in user_inputs` loop of the matcher:
the missing-key branch `continue`s (skipping the other checks), the
mismatch and tolerance branches each clear the flag and append a reason. -/
def checkKeyStep (component_data spec : Record) (acc : Bool × List String)
    (kv : String × Value) : Bool × List String :=
  let spec_val := normalize_units (getD spec kv.1)
  let comp_val := normalize_units (getD component_data kv.1)
  let user_val := normalize_units kv.2
  if comp_val = "" ∨ spec_val = "" then
    (false, acc.2 ++ [missingMsg kv.1])
  else
    let acc1 : Bool × List String :=
      if spec_val ≠ user_val then (false, acc.2 ++ [mismatchMsg kv.1 user_val spec_val])
      else acc
    if hasDigit comp_val && hasDigit spec_val && !(within_tolerance spec_val comp_val tol05) then
      (false, acc1.2 ++ [tolMsg kv.1 comp_val spec_val])
    else acc1

/-- The inner loop of the matcher over one spec: `match = True; reasons = []`
then the per-key checks. -/
def checkSpec (component_data spec : Record) (user_inputs : Record) :
    Bool × List String :=
  user_inputs.foldl (checkKeyStep component_data spec) (true, [])

/-- Success message referencing `spec.get('id', 'N/A')`. -/
def successMsg (spec : Record) : String :=
  "Component matches SAE specification: " ++
    (match spec.lookup "id" with
     | some v => strOfValue v
     | none => "N/A")

/-- Failure message: note `reasons` here is whatever the LAST loop
iteration left behind, exactly as in the source. -/
def noMatchMsg (reasons : List String) : String :=
  "No SAE spec match found. Issues: " ++ String.intercalate "; " reasons

/-- The `for spec in sae_specs` loop, threading the (per-spec, reset)
`reasons` list so the final message can read the last iteration's value. -/
def matchLoop (component_data user_inputs : Record) :
    List Record → List String → Bool × String
  | [], reasons => (false, noMatchMsg reasons)
  | spec :: rest, _ =>
    let mr := checkSpec component_data spec user_inputs
    if mr.1 then (true, successMsg spec)
    else matchLoop component_data user_inputs rest mr.2

/-- `match_component_to_spec`: first accepted spec wins; with an empty spec
list the Python function raises `NameError` (`reasons` is unbound at the
final f-string), modeled as `none`. -/
def match_component_to_spec (component_data : Record) (sae_specs : List Record)
    (user_inputs : Record) : Option (Bool × String) :=
  match sae_specs with
  | [] => none
  | _ :: _ => some (matchLoop component_data user_inputs sae_specs [])

/-- Every reason recorded across all specs (what claim C2 says the failure
message contains). -/
def allReasons (component_data : Record) (sae_specs : List Record)
    (user_inputs : Record) : List String :=
  (sae_specs.map fun spec => (checkSpec component_data spec user_inputs).2).flatten

/-- `generate_component_summary` (`c_app.py` lines 100-106). -/
def generate_component_summary (component : Record) (m : Bool) (reason : String) :
    String :=
  let pn := match component.lookup "part_number" with
    | some v => strOfValue v
    | none => "N/A"
  if m then
    "Component " ++ pn ++ " meets all program and SAE specifications. " ++
      "Use is recommended with 100% risk coverage achieved. Reason: " ++ reason ++ "."
  else
    "Component " ++ pn ++ " does not meet required specifications. " ++
      "Risk coverage remains at 0%. Issues: " ++ reason ++ "."

/-- A near-miss candidate of `suggest_alternatives`. -/
structure AltCandidate where
  spec : Record
  differences : List (String × Value × Value)
deriving DecidableEq, Repr

/-- The difference triples of one spec against a component: fields present
in both whose normalized values differ, with the raw values. -/
def diffsFor (component : Record) (spec : Record) : List (String × Value × Value) :=
  component.filterMap fun kv =>
    match spec.lookup kv.1 with
    | none => none
    | some sv =>
      if normalize_units (getD component kv.1) ≠ normalize_units sv then
        some (kv.1, getD component kv.1, sv)
      else none

/-- `suggest_alternatives` (`c_app.py` lines 108-117): keep each spec whose
difference count is at most two, in spec order. -/
def suggest_alternatives (component : Record) (sae_specs : List Record) :
    List AltCandidate :=
  sae_specs.filterMap fun spec =>
    let differences := diffsFor component spec
    if differences.length ≤ 2 then some ⟨spec, differences⟩ else none

/-- One evaluation result of `process_bulk_components`. -/
structure EvalResult where
  component : Record
  is_match : Bool
  reason : String
  summary : String
  alternatives : List AltCandidate
  risk_reduction : Nat
deriving DecidableEq, Repr

/-- `evaluate_row` inside `process_bulk_components` (`c_app.py` lines 84-96);
`none` propagates the row-level fault (empty spec list). -/
def evaluate_row (sae_specs : List Record) (user_inputs : Record)
    (row : Record) : Option EvalResult :=
  (match_component_to_spec row sae_specs user_inputs).map fun mr =>
    { component := row
      is_match := mr.1
      reason := mr.2
      summary := generate_component_summary row mr.1 mr.2
      alternatives := if mr.1 then [] else suggest_alternatives row sae_specs
      risk_reduction := if mr.1 then 100 else 0 }

/-- `process_bulk_components` (`c_app.py` lines 83-98): `executor.map`
evaluates the pure `evaluate_row` over the rows and returns the results in
row order (completion order never reorders an `Executor.map`), so the
parallel map is embedded as a map; a row-level exception faults the whole
bulk run. -/
def process_bulk_components (component_df : List Record) (sae_specs : List Record)
    (user_inputs : Record) : Option (List EvalResult) :=
  component_df.mapM (evaluate_row sae_specs user_inputs)

/-! ### Program Store (`save_program_data` / `load_program_data`,
`c_app.py` lines 119-129).  A saved program file holds one JSON document;
the external `json` collaborator is modeled at the JSON-value level, with
its one behavior that matters for the round-trip claim made explicit:
`json.dump` serializes Python tuples as JSON arrays, and `json.load` reads
every array back as a list. -/

/-- JSON-representable Python values appearing in evaluation results. -/
inductive PyVal where
  | PStr : String → PyVal
  | PInt : Int → PyVal
  | PBool : Bool → PyVal
  | PNone : PyVal
  | PList : List PyVal → PyVal
  | PTuple : List PyVal → PyVal
  | PDict : List (String × PyVal) → PyVal
deriving Repr

/-- JSON documents. -/
inductive Json where
  | JStr : String → Json
  | JInt : Int → Json
  | JBool : Bool → Json
  | JNull : Json
  | JArr : List Json → Json
  | JObj : List (String × Json) → Json
deriving Repr

mutual

/-- `json.dump`: tuples and lists both serialize as arrays. -/
def jsonOfPy : PyVal → Json
  | .PStr s => .JStr s
  | .PInt n => .JInt n
  | .PBool b => .JBool b
  | .PNone => .JNull
  | .PList l => .JArr (jsonOfPyList l)
  | .PTuple l => .JArr (jsonOfPyList l)
  | .PDict l => .JObj (jsonOfPyPairs l)

def jsonOfPyList : List PyVal → List Json
  | [] => []
  | v :: vs => jsonOfPy v :: jsonOfPyList vs

def jsonOfPyPairs : List (String × PyVal) → List (String × Json)
  | [] => []
  | kv :: vs => (kv.1, jsonOfPy kv.2) :: jsonOfPyPairs vs

end

mutual

/-- `json.load`: arrays come back as lists. -/
def pyOfJson : Json → PyVal
  | .JStr s => .PStr s
  | .JInt n => .PInt n
  | .JBool b => .PBool b
  | .JNull => .PNone
  | .JArr l => .PList (pyOfJsonList l)
  | .JObj l => .PDict (pyOfJsonPairs l)

def pyOfJsonList : List Json → List PyVal
  | [] => []
  | v :: vs => pyOfJson v :: pyOfJsonList vs

def pyOfJsonPairs : List (String × Json) → List (String × PyVal)
  | [] => []
  | kv :: vs => (kv.1, pyOfJson kv.2) :: pyOfJsonPairs vs

end

mutual

/-- Replace every tuple by the corresponding list. -/
def tuplesToLists : PyVal → PyVal
  | .PStr s => .PStr s
  | .PInt n => .PInt n
  | .PBool b => .PBool b
  | .PNone => .PNone
  | .PList l => .PList (tuplesToListsList l)
  | .PTuple l => .PList (tuplesToListsList l)
  | .PDict l => .PDict (tuplesToListsPairs l)

def tuplesToListsList : List PyVal → List PyVal
  | [] => []
  | v :: vs => tuplesToLists v :: tuplesToListsList vs

def tuplesToListsPairs : List (String × PyVal) → List (String × PyVal)
  | [] => []
  | kv :: vs => (kv.1, tuplesToLists kv.2) :: tuplesToListsPairs vs

end

mutual

theorem pyOfJson_jsonOfPy : ∀ v : PyVal, pyOfJson (jsonOfPy v) = tuplesToLists v
  | .PStr _ => rfl
  | .PInt _ => rfl
  | .PBool _ => rfl
  | .PNone => rfl
  | .PList l => by
    simp only [jsonOfPy, pyOfJson, tuplesToLists, pyOfJson_jsonOfPyList l]
  | .PTuple l => by
    simp only [jsonOfPy, pyOfJson, tuplesToLists, pyOfJson_jsonOfPyList l]
  | .PDict l => by
    simp only [jsonOfPy, pyOfJson, tuplesToLists, pyOfJson_jsonOfPyPairs l]

theorem pyOfJson_jsonOfPyList :
    ∀ l : List PyVal, pyOfJsonList (jsonOfPyList l) = tuplesToListsList l
  | [] => rfl
  | v :: vs => by
    simp only [jsonOfPyList, pyOfJsonList, tuplesToListsList,
      pyOfJson_jsonOfPy v, pyOfJson_jsonOfPyList vs]

theorem pyOfJson_jsonOfPyPairs :
    ∀ l : List (String × PyVal), pyOfJsonPairs (jsonOfPyPairs l) = tuplesToListsPairs l
  | [] => rfl
  | kv :: vs => by
    simp only [jsonOfPyPairs, pyOfJsonPairs, tuplesToListsPairs,
      pyOfJson_jsonOfPy kv.2, pyOfJson_jsonOfPyPairs vs]

end

/-- Python value of a table cell. -/
def valueToPy : Value → PyVal
  | .VStr s => .PStr s
  | .VInt n => .PInt n

/-- A record as a Python dict of scalars. -/
def recordToPy (r : Record) : PyVal :=
  .PDict (r.map fun kv => (kv.1, valueToPy kv.2))

/-- A difference triple is a Python TUPLE `(k, component[k], spec[k])`. -/
def diffToPy (d : String × Value × Value) : PyVal :=
  .PTuple [.PStr d.1, valueToPy d.2.1, valueToPy d.2.2]

/-- An alternative candidate dict. -/
def altToPy (a : AltCandidate) : PyVal :=
  .PDict [("spec", recordToPy a.spec),
          ("differences", .PList (a.differences.map diffToPy))]

/-- An evaluation-result dict, with the keys of the source literal. -/
def evalResultToPy (r : EvalResult) : PyVal :=
  .PDict [("component", recordToPy r.component),
          ("match", .PBool r.is_match),
          ("reason", .PStr r.reason),
          ("summary", .PStr r.summary),
          ("alternatives", .PList (r.alternatives.map altToPy)),
          ("risk_reduction", .PInt (r.risk_reduction : Int))]

/-- The full result sequence passed to `save_program_data`. -/
def resultsToPy (rs : List EvalResult) : PyVal :=
  .PList (rs.map evalResultToPy)

/-- The `local_program_data` directory: one optional JSON document per
program name. -/
abbrev Store := String → Option Json

/-- `save_program_data`: overwrite the document for this name. -/
def save_program_data (store : Store) (program_name : String)
    (data : List EvalResult) : Store :=
  fun n => if n = program_name then some (jsonOfPy (resultsToPy data)) else store n

/-- `load_program_data`: parse the document if the file exists, else return
the empty dict `{}`. -/
def load_program_data (store : Store) (program_name : String) : PyVal :=
  match store program_name with
  | some j => pyOfJson j
  | none => .PDict []

mutual

/-- Number of tuple nodes in a Python value (an observer separating a
value containing tuples from its loaded image). -/
def tupleCount : PyVal → Nat
  | .PStr _ => 0
  | .PInt _ => 0
  | .PBool _ => 0
  | .PNone => 0
  | .PList l => tupleCountList l
  | .PTuple l => tupleCountList l + 1
  | .PDict l => tupleCountPairs l

def tupleCountList : List PyVal → Nat
  | [] => 0
  | v :: vs => tupleCount v + tupleCountList vs

def tupleCountPairs : List (String × PyVal) → Nat
  | [] => 0
  | kv :: vs => tupleCount kv.2 + tupleCountPairs vs

end

/-! ### Helper lemmas for the matcher and the bulk evaluator -/

/-- A key whose component value is non-empty, agrees with the spec value,
matches the user requirement, and passes the tolerance check when numeric,
leaves the inner-loop accumulator unchanged. -/
theorem checkKeyStep_pass {component_data spec : Record} {kv : String × Value}
    (hne : normalize_units (getD component_data kv.1) ≠ "")
    (hid : normalize_units (getD component_data kv.1) = normalize_units (getD spec kv.1))
    (huser : normalize_units (getD spec kv.1) = normalize_units kv.2)
    (htol : hasDigit (normalize_units (getD component_data kv.1)) = true →
      within_tolerance (normalize_units (getD spec kv.1))
        (normalize_units (getD component_data kv.1)) tol05 = true)
    (acc : Bool × List String) :
    checkKeyStep component_data spec acc kv = acc := by
  have hs : (normalize_units (getD component_data kv.1) = "" ∨
      normalize_units (getD spec kv.1) = "") = False := by
    apply eq_false
    rw [← hid]
    intro h
    rcases h with h | h <;> exact hne h
  have heq : (normalize_units (getD spec kv.1) ≠ normalize_units kv.2) = False :=
    eq_false fun h => h huser
  have hcond : (hasDigit (normalize_units (getD component_data kv.1)) &&
      hasDigit (normalize_units (getD spec kv.1)) &&
      !within_tolerance (normalize_units (getD spec kv.1))
        (normalize_units (getD component_data kv.1)) tol05) = false := by
    cases hd : hasDigit (normalize_units (getD component_data kv.1)) with
    | false => simp
    | true =>
      have hw := htol hd
      simp [hw]
  simp [checkKeyStep, hs, heq, hcond]

/-- Folding key checks that all pass leaves the initial accumulator. -/
theorem foldl_checkKeyStep_id {component_data spec : Record} :
    ∀ {user_inputs : Record},
      (∀ kv ∈ user_inputs, ∀ acc, checkKeyStep component_data spec acc kv = acc) →
      ∀ acc, user_inputs.foldl (checkKeyStep component_data spec) acc = acc := by
  intro user_inputs
  induction user_inputs with
  | nil => intro _ acc; rfl
  | cons kv rest ih =>
    intro h acc
    rw [List.foldl_cons, h kv (by simp) acc]
    exact ih (fun kv' hkv' => h kv' (by simp [hkv'])) acc

/-- If some member spec passes all its checks, the scan reports a match. -/
theorem matchLoop_true_of_mem {component_data user_inputs : Record} {spec : Record} :
    ∀ {sae_specs : List Record} {rs : List String}, spec ∈ sae_specs →
      (checkSpec component_data spec user_inputs).1 = true →
      (matchLoop component_data user_inputs sae_specs rs).1 = true := by
  intro sae_specs
  induction sae_specs with
  | nil => intro rs h; simp at h
  | cons t rest ih =>
    intro rs hmem htrue
    show (matchLoop component_data user_inputs (t :: rest) rs).1 = true
    unfold matchLoop
    by_cases hm : (checkSpec component_data t user_inputs).1 = true
    · simp [hm]
    · have hne : spec ≠ t := fun he => hm (he ▸ htrue)
      have hmem' : spec ∈ rest := by
        rcases List.mem_cons.mp hmem with h | h
        · exact absurd h hne
        · exact h
      simp only [Bool.not_eq_true] at hm
      simp [hm]
      exact ih hmem' htrue

/-- When no spec is accepted, the final message is built from the reasons
of the LAST spec examined. -/
theorem matchLoop_false_msg {component_data user_inputs : Record} :
    ∀ {sae_specs : List Record} {rs : List String} {r : String},
      matchLoop component_data user_inputs sae_specs rs = (false, r) →
      sae_specs = [] ∨ ∃ sl, sae_specs.getLast? = some sl ∧
        r = noMatchMsg (checkSpec component_data sl user_inputs).2 := by
  intro sae_specs
  induction sae_specs with
  | nil => intro rs r _; exact Or.inl rfl
  | cons t rest ih =>
    intro rs r h
    right
    unfold matchLoop at h
    by_cases hm : (checkSpec component_data t user_inputs).1 = true
    · simp [hm] at h
    · simp only [Bool.not_eq_true] at hm
      simp only [hm, Bool.false_eq_true, if_false] at h
      rcases ih h with hnil | ⟨sl, hsl, hr⟩
      · subst hnil
        refine ⟨t, rfl, ?_⟩
        unfold matchLoop at h
        have := congrArg Prod.snd h
        simpa using this.symm
      · refine ⟨sl, ?_, hr⟩
        rw [← hsl]
        cases rest with
        | nil => simp at hsl
        | cons a b => rfl

/-- Option-monad `mapM` keeps length and positional correspondence. -/
theorem mapM_option_spec {α β : Type} (f : α → Option β) :
    ∀ (l : List α) (res : List β), l.mapM f = some res →
      res.length = l.length ∧
      ∀ i (hi : i < l.length) (hr : i < res.length),
        f (l.get ⟨i, hi⟩) = some (res.get ⟨i, hr⟩) := by
  intro l
  induction l with
  | nil =>
    intro res h
    rw [List.mapM_nil] at h
    cases h
    exact ⟨rfl, fun i hi => absurd hi (by simp)⟩
  | cons a t ih =>
    intro res h
    rw [List.mapM_cons] at h
    cases hfa : f a with
    | none => rw [hfa] at h; simp at h
    | some b =>
      rw [hfa] at h
      cases hmt : t.mapM f with
      | none => rw [hmt] at h; simp at h
      | some bs =>
        rw [hmt] at h
        simp only [Option.bind_eq_bind, Option.some_bind, Option.pure_def,
          Option.some.injEq] at h
        subst h
        obtain ⟨hlen, hget⟩ := ih bs hmt
        refine ⟨by simp [hlen], ?_⟩
        intro i hi hr
        cases i with
        | zero => simpa using hfa
        | succ j =>
          have hj : j < t.length := by simpa using hi
          have hjr : j < bs.length := by simpa using hr
          simpa using hget j hj hjr

/-- Option-monad `mapM`: every output element is the image of an input. -/
theorem mapM_option_mem {α β : Type} (f : α → Option β) :
    ∀ {l : List α} {res : List β}, l.mapM f = some res →
      ∀ r ∈ res, ∃ a ∈ l, f a = some r := by
  intro l
  induction l with
  | nil =>
    intro res h r hr
    rw [List.mapM_nil] at h
    cases h
    simp at hr
  | cons a t ih =>
    intro res h r hr
    rw [List.mapM_cons] at h
    cases hfa : f a with
    | none => rw [hfa] at h; simp at h
    | some b =>
      rw [hfa] at h
      cases hmt : t.mapM f with
      | none => rw [hmt] at h; simp at h
      | some bs =>
        rw [hmt] at h
        simp only [Option.bind_eq_bind, Option.some_bind, Option.pure_def,
          Option.some.injEq] at h
        subst h
        rcases List.mem_cons.mp hr with hrb | hrbs
        · exact ⟨a, by simp, hrb ▸ hfa⟩
        · obtain ⟨x, hx, hfx⟩ := ih hmt r hrbs
          exact ⟨x, by simp [hx], hfx⟩

/-! ### Claims -/

/-- The hypothesis of claim C1: the component record is identical to the
spec on every requirement field, and within tolerance on the numeric ones. -/
def identicalWithinTol (component_data spec : Record) (user_inputs : Record) : Prop :=
  ∀ kv ∈ user_inputs,
    getD component_data kv.1 = getD spec kv.1 ∧
    (hasDigit (normalize_units (getD component_data kv.1)) = true →
      within_tolerance (normalize_units (getD spec kv.1))
        (normalize_units (getD component_data kv.1)) tol05 = true)

/-- C1 counterexample: a component identical to a spec on the one
requirement field (no numeric fields, so the tolerance side is vacuous),
yet the matcher reports `match = false`, because the spec value also has
to equal the USER-required value — a condition claim C1 does not assume.
Here the user requires `type = a` while component and spec agree on
`type = b`. -/
theorem C1_counterexample :
    identicalWithinTol [("type", Value.VStr "b")] [("type", Value.VStr "b")]
      [("type", Value.VStr "a")] ∧
    [("type", Value.VStr "b")] ∈ [[("type", Value.VStr "b")]] ∧
    (match_component_to_spec [("type", Value.VStr "b")] [[("type", Value.VStr "b")]]
      [("type", Value.VStr "a")]).map Prod.fst = some false := by
  refine ⟨?_, ?_, ?_⟩
  · intro kv hkv
    refine ⟨?_, ?_⟩
    · rcases List.mem_singleton.mp hkv with rfl
      rfl
    · rcases List.mem_singleton.mp hkv with rfl
      intro h
      exact absurd h (by decide)
  · decide
  · decide

/-- C1 (amended): if additionally, on every requirement field, the shared
normalized value is non-empty and the spec's normalized value equals the
normalized user-required value, then the matcher reports `match = true`. -/
theorem C1_match_identical (component_data : Record) (sae_specs : List Record)
    (user_inputs : Record) (spec : Record)
    (hmem : spec ∈ sae_specs)
    (hid : identicalWithinTol component_data spec user_inputs)
    (hne : ∀ kv ∈ user_inputs, normalize_units (getD component_data kv.1) ≠ "")
    (huser : ∀ kv ∈ user_inputs,
      normalize_units (getD spec kv.1) = normalize_units kv.2) :
    (match_component_to_spec component_data sae_specs user_inputs).map Prod.fst =
      some true := by
  have hcheck : checkSpec component_data spec user_inputs = (true, []) := by
    unfold checkSpec
    apply foldl_checkKeyStep_id
    intro kv hkv acc
    exact checkKeyStep_pass (hne kv hkv) (congrArg normalize_units (hid kv hkv).1)
      (huser kv hkv)
      (fun hd => (congrArg normalize_units (hid kv hkv).1) ▸ (hid kv hkv).2 hd) acc
  cases sae_specs with
  | nil => simp at hmem
  | cons t rest =>
    have hloop : (matchLoop component_data user_inputs (t :: rest) []).1 = true :=
      matchLoop_true_of_mem hmem (by rw [hcheck])
    show ((match_component_to_spec component_data (t :: rest) user_inputs).map
      Prod.fst) = some true
    unfold match_component_to_spec
    rw [← hloop]
    rfl

/-- Witness for C1 (amended) on a concrete all-text requirement. -/
theorem C1_match_identical_witness :
    ([("type", Value.VStr "resistor")] ∈ [[("type", Value.VStr "resistor")]] ∧
     identicalWithinTol [("type", Value.VStr "resistor")]
       [("type", Value.VStr "resistor")] [("type", Value.VStr "Resistor")] ∧
     (∀ kv ∈ [("type", Value.VStr "Resistor")],
       normalize_units (getD [("type", Value.VStr "resistor")] kv.1) ≠ "") ∧
     (∀ kv ∈ [("type", Value.VStr "Resistor")],
       normalize_units (getD [("type", Value.VStr "resistor")] kv.1) =
         normalize_units kv.2)) ∧
    (match_component_to_spec [("type", Value.VStr "resistor")]
      [[("type", Value.VStr "resistor")]] [("type", Value.VStr "Resistor")]).map
        Prod.fst = some true := by
  refine ⟨⟨by decide, ?_, by decide, by decide⟩, ?_⟩
  · intro kv hkv
    rcases List.mem_singleton.mp hkv with rfl
    exact ⟨rfl, fun h => absurd h (by decide)⟩
  · apply C1_match_identical _ _ _ [("type", Value.VStr "resistor")] (by decide)
    · intro kv hkv
      rcases List.mem_singleton.mp hkv with rfl
      exact ⟨rfl, fun h => absurd h (by decide)⟩
    · decide
    · decide

/-- C2 counterexample: two specs each rejected with one mismatch reason;
the matcher returns `match = false`, but the returned message is NOT the
semicolon-join of the reasons of both rejected specs — the per-spec
`reasons` list is re-initialized inside the loop, so only the last spec's
reason survives. -/
theorem C2_counterexample :
    (match_component_to_spec [("type", Value.VStr "c")]
        [[("type", Value.VStr "b")], [("type", Value.VStr "d")]]
        [("type", Value.VStr "a")]).map Prod.fst = some false ∧
    (match_component_to_spec [("type", Value.VStr "c")]
        [[("type", Value.VStr "b")], [("type", Value.VStr "d")]]
        [("type", Value.VStr "a")]).map Prod.snd ≠
      some (noMatchMsg (allReasons [("type", Value.VStr "c")]
        [[("type", Value.VStr "b")], [("type", Value.VStr "d")]]
        [("type", Value.VStr "a")])) := by
  constructor
  · decide
  · decide

/-- C2 (amended): whenever the matcher returns `match = false`, the reason
string is the semicolon-joined concatenation of the failure reasons of the
LAST spec examined only. -/
theorem C2_reason_from_last_spec (component_data : Record) (sae_specs : List Record)
    (user_inputs : Record) (r : String)
    (h : match_component_to_spec component_data sae_specs user_inputs =
      some (false, r)) :
    ∃ spec, sae_specs.getLast? = some spec ∧
      r = noMatchMsg (checkSpec component_data spec user_inputs).2 := by
  unfold match_component_to_spec at h
  cases sae_specs with
  | nil => simp at h
  | cons t rest =>
    simp only [Option.some.injEq] at h
    rcases matchLoop_false_msg h with hnil | ⟨sl, hsl, hr⟩
    · exact absurd hnil (by simp)
    · exact ⟨sl, hsl, hr⟩

/-- Witness for C2 (amended) at the counterexample input. -/
theorem C2_reason_from_last_spec_witness :
    (match_component_to_spec [("type", Value.VStr "c")]
        [[("type", Value.VStr "b")], [("type", Value.VStr "d")]]
        [("type", Value.VStr "a")] =
      some (false, "No SAE spec match found. Issues: " ++
        "Mismatch: user required type = a, SAE has d")) ∧
    (∃ spec, [[("type", Value.VStr "b")], [("type", Value.VStr "d")]].getLast? =
        some spec ∧
      ("No SAE spec match found. Issues: " ++
        "Mismatch: user required type = a, SAE has d") =
        noMatchMsg (checkSpec [("type", Value.VStr "c")] spec
          [("type", Value.VStr "a")]).2) :=
  ⟨by decide, C2_reason_from_last_spec _ _ _ _ (by decide)⟩

/-- C3 counterexample: the normalizer is NOT idempotent on `"K"`:
the `k → 000` replacement runs before `.lower()`, so the first pass turns
`"K"` into `"k"` and only the second pass expands it to `"000"`. -/
theorem C3_counterexample :
    normalize_units (Value.VStr (normalize_units (Value.VStr "K"))) ≠
      normalize_units (Value.VStr "K") := by
  decide

/-- The value's string form contains an uppercase K (the characters on
which the counterexample shows idempotency fails). -/
def hasUpperK : Value → Bool
  | Value.VStr s => s.data.contains 'K'
  | Value.VInt _ => false

/-- C3 (amended): the normalizer is idempotent on every integer and every
string containing no uppercase `K` (lowering can manufacture a fresh `k`
only from an uppercase `K`, which the next pass would expand to `000`). -/
theorem C3_normalize_idempotent (x : Value) (h : hasUpperK x = false) :
    normalize_units (Value.VStr (normalize_units x)) = normalize_units x := by
  cases x with
  | VStr s =>
    have hK : 'K' ∉ s.data := by simpa [hasUpperK] using h
    show (⟨normStr (normStr s.data)⟩ : String) = ⟨normStr s.data⟩
    exact congrArg String.mk (normStr_idem hK)
  | VInt n =>
    have hchars : ∀ c ∈ stripChars (intStr n),
        (48 ≤ c.toNat ∧ c.toNat ≤ 57) ∨ c = '-' :=
      fun c hc => intStr_range n c (mem_of_mem_stripChars hc)
    show (⟨normStr (stripChars (intStr n))⟩ : String) = ⟨stripChars (intStr n)⟩
    apply congrArg String.mk
    unfold normStr
    rw [replaceAll_eq_self (fun c hc => ⟨(digitish_fixed (hchars c hc)).1,
      (digitish_fixed (hchars c hc)).2.1, (digitish_fixed (hchars c hc)).2.2.1⟩)]
    have hmap : (stripChars (intStr n)).map pyLower = stripChars (intStr n) := by
      have := List.map_congr_left
        (fun c hc => (digitish_fixed (hchars c hc)).2.2.2)
      simpa using this
    rw [hmap, stripChars_idem]

/-- Witness for C3 (amended) on a realistic unit string. -/
theorem C3_normalize_idempotent_witness :
    hasUpperK (Value.VStr "4.7kΩ") = false ∧
    normalize_units (Value.VStr (normalize_units (Value.VStr "4.7kΩ"))) =
      normalize_units (Value.VStr "4.7kΩ") :=
  ⟨by decide, C3_normalize_idempotent _ (by decide)⟩

/-- The component value only feeds the emptiness check, the digit test and
the tolerance call; for a non-empty, digit-free value the key check is
independent of it. -/
theorem checkKeyStep_comp_irrelevant {c1 c2 spec : Record} {kv : String × Value}
    (hne1 : normalize_units (getD c1 kv.1) ≠ "")
    (hne2 : normalize_units (getD c2 kv.1) ≠ "")
    (hd1 : hasDigit (normalize_units (getD c1 kv.1)) = false)
    (hd2 : hasDigit (normalize_units (getD c2 kv.1)) = false)
    (acc : Bool × List String) :
    checkKeyStep c1 spec acc kv = checkKeyStep c2 spec acc kv := by
  unfold checkKeyStep
  by_cases hsv : normalize_units (getD spec kv.1) = ""
  · rw [if_pos (Or.inr hsv), if_pos (Or.inr hsv)]
  · have hc1 : (normalize_units (getD c1 kv.1) = "" ∨
        normalize_units (getD spec kv.1) = "") = False :=
      eq_false (by rintro (h | h); exacts [hne1 h, hsv h])
    have hc2 : (normalize_units (getD c2 kv.1) = "" ∨
        normalize_units (getD spec kv.1) = "") = False :=
      eq_false (by rintro (h | h); exacts [hne2 h, hsv h])
    have e1 : (hasDigit (normalize_units (getD c1 kv.1)) &&
        hasDigit (normalize_units (getD spec kv.1)) &&
        !within_tolerance (normalize_units (getD spec kv.1))
          (normalize_units (getD c1 kv.1)) tol05) = false := by
      rw [hd1]; rfl
    have e2 : (hasDigit (normalize_units (getD c2 kv.1)) &&
        hasDigit (normalize_units (getD spec kv.1)) &&
        !within_tolerance (normalize_units (getD spec kv.1))
          (normalize_units (getD c2 kv.1)) tol05) = false := by
      rw [hd2]; rfl
    simp only [hc1, hc2, e1, e2, Bool.false_eq_true, if_false]

/-- Fold two pointwise-equal step functions to the same result. -/
theorem foldl_congr_mem {f g : (Bool × List String) → (String × Value) → (Bool × List String)} :
    ∀ {l : List (String × Value)},
      (∀ kv ∈ l, ∀ acc, f acc kv = g acc kv) →
      ∀ a, l.foldl f a = l.foldl g a := by
  intro l
  induction l with
  | nil => intro _ a; rfl
  | cons kv rest ih =>
    intro h a
    rw [List.foldl_cons, List.foldl_cons, h kv (by simp) a]
    exact ih (fun kv' hkv' => h kv' (by simp [hkv'])) _

/-- Components whose per-spec checks agree give the same scan result. -/
theorem matchLoop_congr {c1 c2 user_inputs : Record}
    (hcs : ∀ spec, checkSpec c1 spec user_inputs = checkSpec c2 spec user_inputs) :
    ∀ (sae_specs : List Record) (rs : List String),
      matchLoop c1 user_inputs sae_specs rs = matchLoop c2 user_inputs sae_specs rs := by
  intro sae_specs
  induction sae_specs with
  | nil => intro rs; rfl
  | cons t rest ih =>
    intro rs
    show matchLoop c1 user_inputs (t :: rest) rs = matchLoop c2 user_inputs (t :: rest) rs
    unfold matchLoop
    rw [hcs t]
    by_cases hm : (checkSpec c2 t user_inputs).1 = true
    · simp [hm]
    · simp only [Bool.not_eq_true] at hm
      simp only [hm, Bool.false_eq_true, if_false]
      exact ih _

/-- C4: two components that differ only in the value of one required
field, where both values normalize to non-empty digit-free strings, get
the exact same `(match, reason)` result: the component's own value of a
non-numeric field is never compared against the user-required value. -/
theorem C4_nonnumeric_value_never_compared (c1 c2 : Record)
    (sae_specs : List Record) (user_inputs : Record) (K : String)
    (_hreq : (user_inputs.lookup K).isSome = true)
    (hagree : ∀ k, k ≠ K → getD c1 k = getD c2 k)
    (hne1 : normalize_units (getD c1 K) ≠ "")
    (hne2 : normalize_units (getD c2 K) ≠ "")
    (hd1 : hasDigit (normalize_units (getD c1 K)) = false)
    (hd2 : hasDigit (normalize_units (getD c2 K)) = false) :
    match_component_to_spec c1 sae_specs user_inputs =
      match_component_to_spec c2 sae_specs user_inputs := by
  have hstep : ∀ (spec : Record) (kv : String × Value) (acc : Bool × List String),
      checkKeyStep c1 spec acc kv = checkKeyStep c2 spec acc kv := by
    intro spec kv acc
    by_cases hk : kv.1 = K
    · exact checkKeyStep_comp_irrelevant (hk ▸ hne1) (hk ▸ hne2) (hk ▸ hd1)
        (hk ▸ hd2) acc
    · unfold checkKeyStep
      rw [hagree kv.1 hk]
  have hcs : ∀ spec, checkSpec c1 spec user_inputs = checkSpec c2 spec user_inputs :=
    fun spec => foldl_congr_mem (fun kv _ acc => hstep spec kv acc) _
  unfold match_component_to_spec
  cases sae_specs with
  | nil => rfl
  | cons t rest => rw [matchLoop_congr hcs]

/-- Witness for C4: swapping a digit-free `type` value does not change the
result (here, both components are even accepted). -/
theorem C4_nonnumeric_value_never_compared_witness :
    (([("type", Value.VStr "res")] : Record).lookup "type").isSome = true ∧
    (∀ k, k ≠ "type" →
      getD [("type", Value.VStr "res")] k = getD [("type", Value.VStr "cap")] k) ∧
    normalize_units (getD [("type", Value.VStr "res")] "type") ≠ "" ∧
    normalize_units (getD [("type", Value.VStr "cap")] "type") ≠ "" ∧
    hasDigit (normalize_units (getD [("type", Value.VStr "res")] "type")) = false ∧
    hasDigit (normalize_units (getD [("type", Value.VStr "cap")] "type")) = false ∧
    match_component_to_spec [("type", Value.VStr "res")]
        [[("type", Value.VStr "res")]] [("type", Value.VStr "res")] =
      match_component_to_spec [("type", Value.VStr "cap")]
        [[("type", Value.VStr "res")]] [("type", Value.VStr "res")] := by
  have hagree : ∀ k, k ≠ "type" →
      getD [("type", Value.VStr "res")] k = getD [("type", Value.VStr "cap")] k := by
    intro k hk
    have hb : (k == "type") = false := beq_eq_false_iff_ne.mpr hk
    simp [getD, List.lookup, hb]
  refine ⟨by decide, hagree, by decide, by decide, by decide, by decide, ?_⟩
  exact C4_nonnumeric_value_never_compared _ _ _ _ "type" (by decide) hagree
    (by decide) (by decide) (by decide) (by decide)

/-- C5: in every bulk-evaluation result, `risk_reduction` is 100 exactly
when `match` is true, and 0 whenever `match` is false. -/
theorem C5_risk_reduction_iff_match (component_df sae_specs : List Record)
    (user_inputs : Record) (results : List EvalResult)
    (h : process_bulk_components component_df sae_specs user_inputs = some results) :
    ∀ r ∈ results, (r.risk_reduction = 100 ↔ r.is_match = true) ∧
      (r.is_match = false → r.risk_reduction = 0) := by
  intro r hr
  obtain ⟨row, _, hrow⟩ := mapM_option_mem _ h r hr
  unfold evaluate_row at hrow
  cases hm : match_component_to_spec row sae_specs user_inputs with
  | none => rw [hm] at hrow; simp at hrow
  | some mr =>
    rw [hm] at hrow
    simp only [Option.map_some', Option.some.injEq] at hrow
    subst hrow
    cases hb : mr.1 <;> simp [hb]

/-- The single result of the C5 witness run. -/
def c5result : EvalResult :=
  { component := [("type", Value.VStr "x")]
    is_match := true
    reason := "Component matches SAE specification: N/A"
    summary := "Component N/A meets all program and SAE specifications. " ++
      "Use is recommended with 100% risk coverage achieved. " ++
      "Reason: Component matches SAE specification: N/A."
    alternatives := []
    risk_reduction := 100 }

/-- Witness for C5 on a concrete one-row bulk run. -/
theorem C5_risk_reduction_iff_match_witness :
    (process_bulk_components [[("type", Value.VStr "x")]]
        [[("type", Value.VStr "x")]] [("type", Value.VStr "x")] =
      some [c5result]) ∧
    ((c5result.risk_reduction = 100 ↔ c5result.is_match = true) ∧
      (c5result.is_match = false → c5result.risk_reduction = 0)) :=
  ⟨by decide,
   C5_risk_reduction_iff_match [[("type", Value.VStr "x")]]
     [[("type", Value.VStr "x")]] [("type", Value.VStr "x")] [c5result]
     (by decide) c5result (by decide)⟩

/-- C6: `within_tolerance` is fail-closed: a failed numeric parse of
either argument, or a zero parsed expected value (the caught
`ZeroDivisionError`), yields `false` rather than an error; totality of
the embedding expresses that no exception escapes. -/
theorem C6_within_tolerance_fail_closed (expected actual : String) (tolerance : Rat)
    (h : pyFloat? expected = none ∨ pyFloat? actual = none ∨
      pyFloat? expected = some 0) :
    within_tolerance expected actual tolerance = false := by
  unfold within_tolerance
  rcases h with he | ha | h0
  · rw [he]
  · rw [ha]
    cases pyFloat? expected <;> rfl
  · rw [h0]
    cases hpa : pyFloat? actual with
    | none => rfl
    | some qa =>
      show (if (0 : Rat) = 0 then false
        else decide (|(0 : Rat) - qa| / 0 ≤ tolerance)) = false
      rw [if_pos rfl]

/-- Witness for C6: a non-numeric expected value. -/
theorem C6_within_tolerance_fail_closed_witness :
    (pyFloat? "voltage" = none ∨ pyFloat? "5" = none ∨
      pyFloat? "voltage" = some 0) ∧
    within_tolerance "voltage" "5" tol05 = false :=
  ⟨Or.inl (by decide),
    C6_within_tolerance_fail_closed "voltage" "5" tol05 (Or.inl (by decide))⟩

/-- C7: the suggester returns, in spec order, exactly one candidate per
spec whose shared-field differences number at most two, carrying those
difference triples, and never a candidate with three or more differences. -/
theorem C7_suggest_alternatives_characterization (component : Record)
    (sae_specs : List Record) :
    suggest_alternatives component sae_specs =
      (sae_specs.filter fun spec => (diffsFor component spec).length ≤ 2).map
        (fun spec => ⟨spec, diffsFor component spec⟩) ∧
    (suggest_alternatives component sae_specs).all
      (fun cand => cand.differences.length ≤ 2) = true := by
  have hmain : ∀ specs : List Record, suggest_alternatives component specs =
      (specs.filter fun spec => (diffsFor component spec).length ≤ 2).map
        (fun spec => (⟨spec, diffsFor component spec⟩ : AltCandidate)) := by
    intro specs
    induction specs with
    | nil => rfl
    | cons s rest ih =>
      have ih' : rest.filterMap (fun spec =>
          if (diffsFor component spec).length ≤ 2 then
            some (⟨spec, diffsFor component spec⟩ : AltCandidate) else none) =
          (rest.filter fun spec => (diffsFor component spec).length ≤ 2).map
            (fun spec => (⟨spec, diffsFor component spec⟩ : AltCandidate)) := by
        simpa [suggest_alternatives] using ih
      by_cases h : (diffsFor component s).length ≤ 2
      · simp [suggest_alternatives, List.filterMap_cons, List.filter_cons, h, ih']
      · simp [suggest_alternatives, List.filterMap_cons, List.filter_cons, h, ih']
  refine ⟨hmain sae_specs, ?_⟩
  rw [hmain sae_specs, List.all_eq_true]
  intro cand hcand
  obtain ⟨spec, hspec, hc⟩ := List.mem_map.mp hcand
  rw [← hc]
  simpa using (List.mem_filter.mp hspec).2

/-- C8: the bulk evaluator yields exactly one result per input row, the
result at index `i` being the evaluation of row `i`. -/
theorem C8_bulk_preserves_row_order (component_df sae_specs : List Record)
    (user_inputs : Record) (results : List EvalResult)
    (h : process_bulk_components component_df sae_specs user_inputs = some results) :
    results.length = component_df.length ∧
    ∀ i (hi : i < component_df.length) (hr : i < results.length),
      evaluate_row sae_specs user_inputs (component_df.get ⟨i, hi⟩) =
        some (results.get ⟨i, hr⟩) :=
  mapM_option_spec _ _ _ h

/-- The two rows of the C8 witness run. -/
def c8rows : List Record :=
  [[("type", Value.VStr "q")], [("other", Value.VStr "z")]]

/-- The two results of the C8 witness run, in row order. -/
def c8results : List EvalResult :=
  [{ component := [("type", Value.VStr "q")]
     is_match := true
     reason := "Component matches SAE specification: N/A"
     summary := "Component N/A meets all program and SAE specifications. " ++
       "Use is recommended with 100% risk coverage achieved. " ++
       "Reason: Component matches SAE specification: N/A."
     alternatives := []
     risk_reduction := 100 },
   { component := [("other", Value.VStr "z")]
     is_match := false
     reason := "No SAE spec match found. Issues: " ++
       "Missing key: type in component or spec."
     summary := "Component N/A does not meet required specifications. " ++
       "Risk coverage remains at 0%. Issues: No SAE spec match found. " ++
       "Issues: Missing key: type in component or spec.."
     alternatives := [{ spec := [("type", Value.VStr "q")], differences := [] }]
     risk_reduction := 0 }]

set_option maxRecDepth 4000 in
/-- Witness for C8: a two-row bulk run, with both positions checked. -/
theorem C8_bulk_preserves_row_order_witness :
    (process_bulk_components c8rows [[("type", Value.VStr "q")]]
        [("type", Value.VStr "q")] = some c8results) ∧
    c8results.length = c8rows.length ∧
    evaluate_row [[("type", Value.VStr "q")]] [("type", Value.VStr "q")]
        (c8rows.get ⟨0, by decide⟩) = some (c8results.get ⟨0, by decide⟩) ∧
    evaluate_row [[("type", Value.VStr "q")]] [("type", Value.VStr "q")]
        (c8rows.get ⟨1, by decide⟩) = some (c8results.get ⟨1, by decide⟩) :=
  ⟨by decide,
   (C8_bulk_preserves_row_order c8rows [[("type", Value.VStr "q")]]
     [("type", Value.VStr "q")] c8results (by decide)).1,
   (C8_bulk_preserves_row_order c8rows [[("type", Value.VStr "q")]]
     [("type", Value.VStr "q")] c8results (by decide)).2 0 (by decide) (by decide),
   (C8_bulk_preserves_row_order c8rows [[("type", Value.VStr "q")]]
     [("type", Value.VStr "q")] c8results (by decide)).2 1 (by decide) (by decide)⟩

/-- An empty program store. -/
def c9store : Store := fun _ => none

/-- A result sequence whose alternatives carry one difference triple —
a Python tuple, the shape the real evaluator produces for near misses. -/
def c9data : List EvalResult :=
  [{ component := []
     is_match := false
     reason := ""
     summary := ""
     alternatives := [{ spec := []
                        differences := [("a", Value.VStr "x", Value.VStr "y")] }]
     risk_reduction := 0 }]

/-- C9 counterexample: saving and re-loading a result sequence containing
a difference triple does NOT return an equal value — `json.dump` writes
the tuple as a JSON array and `json.load` reads it back as a list. -/
theorem C9_counterexample :
    load_program_data (save_program_data c9store "demo_program" c9data)
      "demo_program" ≠ resultsToPy c9data := by
  intro h
  have hc := congrArg tupleCount h
  have h0 : tupleCount (load_program_data
      (save_program_data c9store "demo_program" c9data) "demo_program") = 0 := by
    decide
  have h1 : tupleCount (resultsToPy c9data) = 1 := by decide
  omega

/-- C9 (amended): loading after saving returns the result sequence with
every tuple read back as the corresponding list — equal to the saved
value exactly on tuple-free data. -/
theorem C9_store_roundtrip (store : Store) (program_name : String)
    (data : List EvalResult) :
    load_program_data (save_program_data store program_name data) program_name =
      tuplesToLists (resultsToPy data) := by
  unfold load_program_data save_program_data
  rw [if_pos rfl]
  exact pyOfJson_jsonOfPy _

/-- C10: whenever the expected value parses to a strictly negative number,
the tolerance check accepts EVERY parsable actual value for every
non-negative tolerance: the quotient `|expected - actual| / expected` is
non-positive, hence below the tolerance. -/
theorem C10_negative_expected_accepts_all (expected actual : String)
    (tolerance : Rat) (qe qa : Rat)
    (hqe : pyFloat? expected = some qe) (hneg : qe < 0)
    (hqa : pyFloat? actual = some qa) (ht : 0 ≤ tolerance) :
    within_tolerance expected actual tolerance = true := by
  unfold within_tolerance
  rw [hqe, hqa]
  have hne : ¬(qe = 0) := fun h => absurd (h ▸ hneg) (lt_irrefl 0)
  show (if qe = 0 then false else decide (|qe - qa| / qe ≤ tolerance)) = true
  rw [if_neg hne]
  have hdiv : |qe - qa| / qe ≤ 0 :=
    div_nonpos_of_nonneg_of_nonpos (abs_nonneg _) hneg.le
  exact decide_eq_true (le_trans hdiv ht)

/-- Witness for C10: expected `-100`, actual `999999`, far outside any
usual tolerance, is accepted. -/
theorem C10_negative_expected_accepts_all_witness :
    (pyFloat? "-100" = some (Rat.divInt (-100) 1) ∧
     Rat.divInt (-100) 1 < 0 ∧
     pyFloat? "999999" = some (Rat.divInt 999999 1) ∧
     (0 : Rat) ≤ tol05) ∧
    within_tolerance "-100" "999999" tol05 = true :=
  ⟨⟨by decide, by decide, by decide, by decide⟩,
   C10_negative_expected_accepts_all "-100" "999999" tol05
     (Rat.divInt (-100) 1) (Rat.divInt 999999 1)
     (by decide) (by decide) (by decide) (by decide)⟩
